import Mathlib

/-!
# Verification of the galoscale PDF rendering glue

Shallow embedding of the repository's three source files:

* `src/unnamed/part_001` — `renderPDFLazy`: source-size validation
  (`toArrayBufferWithSize`), placeholder creation, and the lazy page
  scheduler (`queue` / `active` / `inFlight` / `pump` / `enqueue` /
  the IntersectionObserver callback / `renderPage`).
* `src/unnamed/part_000` — the parallel `renderPDF` variant
  (`Promise.all`, then append canvases in index order).
* `src/js/pdf-preview.js` — the sequential variant sharing
  `toArrayBufferWithSize` (same validation logic as `part_001`).

The scheduler lives on the single JS event loop, so its bookkeeping
(queue and in-flight mutation inside `pump`, `enqueue` and the settle
callbacks) runs atomically between suspension points.  We model it as
a state machine: a state record mirroring the closure variables of
`renderPDFLazy`, and events for the externally-driven callbacks — a
proximity notification from the IntersectionObserver, and the
settlement (success or failure) of an admitted `renderPage` call.
-/

/-- The mutable closure state of `renderPDFLazy` (part_001, lines 68–166).

* `queue`    — the `queue` array of pending page numbers (line 146);
* `active`   — the `active` counter of admitted, unsettled renders (line 147);
* `inFlight` — the `inFlight` set (line 69), kept as a list;
* `rendered` — pages whose holder carries the `pdf-page-rendered` class
  (added on render success, line 126; checked by the observer, line 174);
* `failed`   — pages whose placeholder received an inline `.pdf-error`
  (one entry appended per failed render, lines 133–137);
* `noops`    — `renderPage` calls that returned early on the line-104
  guard and whose `.finally` (line 154) is still pending;
* `callsOf`  — the trace of actual render admissions, i.e. every
  `inFlight.add` performed at line 105, in program order. -/
structure SchedState where
  queue    : List Nat
  active   : Nat
  inFlight : List Nat
  rendered : List Nat
  failed   : List Nat
  noops    : Nat
  callsOf  : List Nat
  deriving DecidableEq, Repr

/-- Initial state: empty queue, no active renders (part_001 lines 69, 146–147). -/
def SchedState.init : SchedState := ⟨[], 0, [], [], [], 0, []⟩

/-- The `pump` loop body (part_001 lines 149–159), with explicit fuel.

```
while (active < concurrent && queue.length) {
  const next = queue.shift();
  if (!next) break;
  active++;
  renderPage(next).finally(() => { active--; pump(); });
}
```

Each iteration shifts one element off `queue`, so `s.queue.length`
fuel runs the loop to completion.  The synchronous prefix of
`renderPage(next)` (lines 103–105) executes before the loop resumes:
either the early-return guard fires (`next` already in flight — the
pending `.finally` is recorded in `noops`) or `next` is added to
`inFlight` and the render call is recorded in `callsOf`.  `Number(0)`
is falsy, so a zero page number breaks the loop after being shifted. -/
def pumpFuel (c : Nat) : Nat → SchedState → SchedState
  | 0, s => s
  | fuel + 1, s =>
    if s.active < c then
      match s.queue with
      | [] => s
      | p :: rest =>
        if p = 0 then { s with queue := rest }
        else if p ∈ s.inFlight then
          pumpFuel c fuel { s with queue := rest, active := s.active + 1,
                                   noops := s.noops + 1 }
        else
          pumpFuel c fuel { s with queue := rest, active := s.active + 1,
                                   inFlight := s.inFlight ++ [p],
                                   callsOf := s.callsOf ++ [p] }
    else s

/-- The `pump()` entry point (part_001 line 149): run the admission loop to completion. -/
def pump (c : Nat) (s : SchedState) : SchedState := pumpFuel c s.queue.length s

/-- The `enqueue(pageNum)` operation (part_001 lines 161–166):

```
if (!queue.includes(pageNum) && !inFlight.has(pageNum)) {
  queue.push(pageNum);
  pump();
}
``` -/
def enqueue (c : Nat) (p : Nat) (s : SchedState) : SchedState :=
  if p ∉ s.queue ∧ p ∉ s.inFlight then
    pump c { s with queue := s.queue ++ [p] }
  else s

/-- The IntersectionObserver callback for one intersecting entry
(part_001 lines 171–177): read the page number, skip holders already
carrying the `pdf-page-rendered` class, otherwise `enqueue`. -/
def observerNotify (c : Nat) (p : Nat) (s : SchedState) : SchedState :=
  if p ∈ s.rendered then s else enqueue c p s

/-- Settlement of an admitted `renderPage(p)` call (part_001
lines 121–142 and the `.finally` at lines 154–157): on success the
holder gains the `pdf-page-rendered` class, on failure an inline
`.pdf-error` element is appended to `p`'s placeholder; in both cases
`inFlight.delete(p)` runs, then `active--` and `pump()`.  The
`p ∈ s.inFlight` guard states the event's precondition — a settlement
only ever arrives for a render that was actually admitted. -/
def renderSettle (c : Nat) (p : Nat) (ok : Bool) (s : SchedState) : SchedState :=
  if p ∈ s.inFlight then
    let s1 : SchedState :=
      { s with rendered := if ok then s.rendered ++ [p] else s.rendered,
               failed   := if ok then s.failed else s.failed ++ [p],
               inFlight := s.inFlight.erase p }
    pump c { s1 with active := s1.active - 1 }
  else s

/-- Settlement of an early-returned `renderPage` call: only its
`.finally` (part_001 lines 154–157) remains to run. -/
def noopSettle (c : Nat) (s : SchedState) : SchedState :=
  if 0 < s.noops then pump c { s with noops := s.noops - 1, active := s.active - 1 }
  else s

/-- External events driving the scheduler: an IntersectionObserver
proximity notification for page `p`, the settlement of page `p`'s
admitted render (with success flag), and the settlement of an
early-returned render call. -/
inductive Event where
  | notify (p : Nat)
  | settle (p : Nat) (ok : Bool)
  | settleNoop
  deriving DecidableEq, Repr

/-- One event of the single-threaded event loop. -/
def step (c : Nat) (s : SchedState) : Event → SchedState
  | .notify p => observerNotify c p s
  | .settle p ok => renderSettle c p ok s
  | .settleNoop => noopSettle c s

/-- Run a sequence of events from a given state. -/
def runFrom (c : Nat) (s : SchedState) (es : List Event) : SchedState :=
  es.foldl (step c) s

/-- Run a sequence of events from the initial scheduler state. -/
def run (c : Nat) (es : List Event) : SchedState :=
  runFrom c .init es

/-- The page numbers of the proximity notifications of a trace, in
observation order. -/
def notifiedPages (es : List Event) : List Nat :=
  es.filterMap fun e => match e with | .notify p => some p | _ => none

/-- Well-formed events: page numbers come from `holder.dataset.page`,
which is `String(i)` for `i ∈ 1..numPages` (part_001 line 85), so a
notification never carries page number `0`. -/
def wfEvent : Event → Bool
  | .notify p => p != 0
  | _ => true

/-! ## The admission loop: `pump` moves a prefix of the queue in-flight -/

/-- Full characterization of one `pump` pass: with no zero page numbers
queued and the queue disjoint from the in-flight set (both invariants
of the real scheduler), `pump` admits some prefix of the queue, in
order: the first `m` queued pages move, in their queue order, onto the
in-flight set and the admission trace, `active` grows by `m`, and the
loop only stops with a slot still free when the queue is exhausted. -/
theorem pumpFuel_spec (c : Nat) : ∀ (fuel : Nat) (s : SchedState),
    s.queue.length ≤ fuel → 0 ∉ s.queue → (∀ q ∈ s.queue, q ∉ s.inFlight) →
    s.queue.Nodup →
    ∃ m, m ≤ s.queue.length ∧
      (pumpFuel c fuel s).queue = s.queue.drop m ∧
      (pumpFuel c fuel s).active = s.active + m ∧
      (pumpFuel c fuel s).inFlight = s.inFlight ++ s.queue.take m ∧
      (pumpFuel c fuel s).callsOf = s.callsOf ++ s.queue.take m ∧
      (pumpFuel c fuel s).rendered = s.rendered ∧
      (pumpFuel c fuel s).failed = s.failed ∧
      (pumpFuel c fuel s).noops = s.noops ∧
      (m = 0 ∨ s.active + m ≤ c) ∧
      ((pumpFuel c fuel s).active < c → (pumpFuel c fuel s).queue = []) := by
  intro fuel
  induction fuel with
  | zero =>
    intro s hlen h0 hd hnd
    have hq : s.queue = [] := List.eq_nil_of_length_eq_zero (Nat.le_zero.mp hlen)
    exact ⟨0, by simp [pumpFuel, hq]⟩
  | succ fuel ih =>
    intro s hlen h0 hd hnd
    obtain ⟨Q, A, F, R, FL, N, CO⟩ := s
    simp only at hlen h0 hd hnd
    by_cases hac : A < c
    · cases Q with
      | nil => exact ⟨0, by simp [pumpFuel, hac]⟩
      | cons p rest =>
        have hp0 : p ≠ 0 := fun h => h0 (by rw [h] at *; exact List.mem_cons_self 0 rest)
        have hpf : p ∉ F := hd p (List.mem_cons_self p rest)
        have hstep : pumpFuel c (fuel + 1) ⟨p :: rest, A, F, R, FL, N, CO⟩ =
            pumpFuel c fuel ⟨rest, A + 1, F ++ [p], R, FL, N, CO ++ [p]⟩ := by
          simp [pumpFuel, hac, hp0, hpf]
        obtain ⟨m, hmle, e1, e2, e3, e4, e5, e6, e7, hb, hl⟩ :=
          ih ⟨rest, A + 1, F ++ [p], R, FL, N, CO ++ [p]⟩
            (by simp at hlen ⊢; omega)
            (fun h => h0 (List.mem_cons_of_mem p h))
            (by
              intro q hqr
              simp only [List.mem_append, List.mem_singleton]
              push_neg
              exact ⟨hd q (List.mem_cons_of_mem p hqr),
                fun h => (List.nodup_cons.mp hnd).1 (h ▸ hqr)⟩)
            (List.nodup_cons.mp hnd).2
        dsimp only at hmle e1 e2 e3 e4 e5 e6 e7 hb hl
        refine ⟨m + 1, ?_, ?_, ?_, ?_, ?_, ?_, ?_, ?_, ?_, ?_⟩
        · simp; omega
        · rw [hstep, e1]; simp [List.drop_succ_cons]
        · rw [hstep, e2]; dsimp only; omega
        · rw [hstep, e3]; simp [List.take_succ_cons]
        · rw [hstep, e4]; simp [List.take_succ_cons]
        · rw [hstep, e5]
        · rw [hstep, e6]
        · rw [hstep, e7]
        · right
          rcases hb with hb | hb
          · subst hb; simpa using hac
          · dsimp only at hb ⊢; omega
        · rw [hstep]; exact hl
    · refine ⟨0, by simp, ?_, ?_, ?_, ?_, ?_, ?_, ?_, Or.inl rfl, ?_⟩ <;>
        simp [pumpFuel, hac]

/-- At the `pump` wrapper level: one pass admits a prefix of the queue, in order. -/
theorem pump_spec (c : Nat) (s : SchedState)
    (h0 : 0 ∉ s.queue) (hd : ∀ q ∈ s.queue, q ∉ s.inFlight) (hnd : s.queue.Nodup) :
    ∃ m, m ≤ s.queue.length ∧
      (pump c s).queue = s.queue.drop m ∧
      (pump c s).active = s.active + m ∧
      (pump c s).inFlight = s.inFlight ++ s.queue.take m ∧
      (pump c s).callsOf = s.callsOf ++ s.queue.take m ∧
      (pump c s).rendered = s.rendered ∧
      (pump c s).failed = s.failed ∧
      (pump c s).noops = s.noops ∧
      (m = 0 ∨ s.active + m ≤ c) ∧
      ((pump c s).active < c → (pump c s).queue = []) :=
  pumpFuel_spec c s.queue.length s le_rfl h0 hd hnd

/-! ## The scheduler's standing invariant -/

/-- Standing invariant of the `renderPDFLazy` closure state: queued
pages are distinct, nonzero, and not in flight; the in-flight set has
no duplicates; no early-return `.finally` is pending; and the `active`
counter counts exactly the in-flight renders, bounded by the
concurrency limit. -/
def SchedInv (c : Nat) (s : SchedState) : Prop :=
  s.queue.Nodup ∧ (∀ q ∈ s.queue, q ∉ s.inFlight) ∧ 0 ∉ s.queue ∧
  s.inFlight.Nodup ∧ s.noops = 0 ∧ s.active = s.inFlight.length ∧ s.active ≤ c

instance (c : Nat) (s : SchedState) : Decidable (SchedInv c s) := by
  unfold SchedInv; infer_instance

theorem inv_init (c : Nat) : SchedInv c SchedState.init := by
  constructor <;> simp [SchedState.init, SchedInv]

/-- The admission loop preserves the standing invariant. -/
theorem inv_pump (c : Nat) (s : SchedState)
    (hnd : s.queue.Nodup) (hd : ∀ q ∈ s.queue, q ∉ s.inFlight) (h0 : 0 ∉ s.queue)
    (hif : s.inFlight.Nodup) (hnp : s.noops = 0)
    (hal : s.active = s.inFlight.length) (hac : s.active ≤ c) :
    SchedInv c (pump c s) := by
  obtain ⟨m, hmle, e1, e2, e3, e4, e5, e6, e7, hb, hl⟩ := pump_spec c s h0 hd hnd
  have htd : (s.queue.take m).Disjoint (s.queue.drop m) := by
    have h := hnd
    rw [← List.take_append_drop m s.queue, List.nodup_append] at h
    exact h.2.2
  have htake_sub : s.queue.take m ⊆ s.queue := List.take_subset m s.queue
  have hdrop_sub : s.queue.drop m ⊆ s.queue := List.drop_subset m s.queue
  refine ⟨?_, ?_, ?_, ?_, ?_, ?_, ?_⟩
  · rw [e1]; exact hnd.sublist (List.drop_sublist m s.queue)
  · intro q hq
    rw [e1] at hq
    rw [e3, List.mem_append]
    push_neg
    exact ⟨hd q (hdrop_sub hq), fun hqt => htd hqt hq⟩
  · rw [e1]; exact fun h => h0 (hdrop_sub h)
  · rw [e3, List.nodup_append]
    exact ⟨hif, hnd.sublist (List.take_sublist m s.queue),
      fun q hq hqt => hd q (htake_sub hqt) hq⟩
  · rw [e7]; exact hnp
  · rw [e2, e3, List.length_append, List.length_take_of_le hmle, hal]
  · rw [e2]
    rcases hb with hb | hb
    · omega
    · omega

/-- Enqueueing a nonzero page preserves the standing invariant. -/
theorem inv_enqueue (c p : Nat) (s : SchedState) (hp : p ≠ 0) (hInv : SchedInv c s) :
    SchedInv c (enqueue c p s) := by
  obtain ⟨hnd, hd, h0, hif, hnp, hal, hac⟩ := hInv
  unfold enqueue
  split
  · next hg =>
    apply inv_pump
    · simpa [List.nodup_append] using ⟨hnd, fun h => hg.1 h⟩
    · intro q hq
      rcases List.mem_append.mp hq with hq | hq
      · exact hd q hq
      · rw [List.mem_singleton.mp hq]; exact hg.2
    · intro h
      rcases List.mem_append.mp h with h | h
      · exact h0 h
      · exact hp (List.mem_singleton.mp h).symm
    · exact hif
    · exact hnp
    · exact hal
    · exact hac
  · exact ⟨hnd, hd, h0, hif, hnp, hal, hac⟩

/-- The observer callback preserves the standing invariant. -/
theorem inv_notify (c p : Nat) (s : SchedState) (hp : p ≠ 0) (hInv : SchedInv c s) :
    SchedInv c (observerNotify c p s) := by
  unfold observerNotify
  split
  · exact hInv
  · exact inv_enqueue c p s hp hInv

/-- Settlement of a render preserves the standing invariant. -/
theorem inv_settle (c p : Nat) (ok : Bool) (s : SchedState) (hInv : SchedInv c s) :
    SchedInv c (renderSettle c p ok s) := by
  obtain ⟨hnd, hd, h0, hif, hnp, hal, hac⟩ := hInv
  unfold renderSettle
  split
  · next hpf =>
    refine inv_pump c _ ?_ ?_ ?_ ?_ ?_ ?_ ?_ <;> dsimp only
    · exact hnd
    · intro q hq hq2
      exact hd q hq (List.erase_subset p s.inFlight hq2)
    · exact h0
    · exact hif.erase p
    · exact hnp
    · rw [List.length_erase_of_mem hpf, hal]
    · exact Nat.le_trans (Nat.sub_le _ _) hac
  · exact ⟨hnd, hd, h0, hif, hnp, hal, hac⟩

/-- A pending-no-op settlement preserves the standing invariant
(vacuously: the invariant says none is pending). -/
theorem inv_noop (c : Nat) (s : SchedState) (hInv : SchedInv c s) :
    SchedInv c (noopSettle c s) := by
  obtain ⟨hnd, hd, h0, hif, hnp, hal, hac⟩ := hInv
  unfold noopSettle
  split
  · next h => rw [hnp] at h; exact absurd h (by omega)
  · exact ⟨hnd, hd, h0, hif, hnp, hal, hac⟩

/-- Every well-formed event preserves the standing invariant. -/
theorem inv_step (c : Nat) (s : SchedState) (e : Event)
    (he : wfEvent e = true) (hInv : SchedInv c s) : SchedInv c (step c s e) := by
  cases e with
  | notify p =>
    have hp : p ≠ 0 := by simpa [wfEvent] using he
    exact inv_notify c p s hp hInv
  | settle p ok => exact inv_settle c p ok s hInv
  | settleNoop => exact inv_noop c s hInv

/-- The standing invariant holds along any well-formed trace. -/
theorem inv_runFrom (c : Nat) (es : List Event) : ∀ s : SchedState,
    SchedInv c s → (∀ e ∈ es, wfEvent e = true) → SchedInv c (runFrom c s es) := by
  induction es with
  | nil => intro s h _; exact h
  | cons e es ih =>
    intro s h hwf
    exact ih (step c s e) (inv_step c s e (hwf e (List.mem_cons_self e es)) h)
      fun x hx => hwf x (List.mem_cons_of_mem e hx)

/-- The standing invariant holds in every reachable state. -/
theorem inv_run (c : Nat) (es : List Event)
    (hwf : ∀ e ∈ es, wfEvent e = true) : SchedInv c (run c es) :=
  inv_runFrom c es SchedState.init (inv_init c) hwf

/-! ## C1: bounded concurrency -/

/-- **C1.** For every concurrency limit `k ≥ 1` and every well-formed
sequence of proximity notifications and render settlements, the number
of pages simultaneously admitted to rendering — the scheduler's
`active` counter, and equally the size of the in-flight set — never
exceeds `k` in any reachable state. -/
theorem claim_C1_concurrency_bounded (k : Nat) (hk : 1 ≤ k) (es : List Event)
    (hwf : ∀ e ∈ es, wfEvent e = true) :
    (run k es).active ≤ k ∧ (run k es).inFlight.length ≤ k := by
  obtain ⟨_, _, _, _, _, hal, hac⟩ := inv_run k es hwf
  exact ⟨hac, by omega⟩

theorem claim_C1_concurrency_bounded_witness :
    1 ≤ 2 ∧
    ((run 2 [.notify 1, .notify 2, .notify 3, .notify 4]).active ≤ 2 ∧
     (run 2 [.notify 1, .notify 2, .notify 3, .notify 4]).inFlight.length ≤ 2) :=
  ⟨by decide, claim_C1_concurrency_bounded 2 (by decide) _ (by decide)⟩

/-! ## C2: idempotent triggers -/

/-- Per-page accounting while page `p` has not settled: `p`'s holder
has no `pdf-page-rendered` class and no inline error, and the
admission trace contains `p` exactly when `p` is in flight. -/
def TrackP (p : Nat) (s : SchedState) : Prop :=
  s.rendered.count p = 0 ∧ s.failed.count p = 0 ∧
  s.callsOf.count p = (if p ∈ s.inFlight then 1 else 0)

/-- Page `p` is pending: queued or in flight. -/
def PresP (p : Nat) (s : SchedState) : Prop :=
  p ∈ s.queue ∨ p ∈ s.inFlight

theorem trackP_pump (c p : Nat) (s : SchedState)
    (h0 : 0 ∉ s.queue) (hd : ∀ q ∈ s.queue, q ∉ s.inFlight) (hnd : s.queue.Nodup)
    (hT : TrackP p s) : TrackP p (pump c s) := by
  obtain ⟨hr, hf, hc⟩ := hT
  obtain ⟨m, hmle, e1, e2, e3, e4, e5, e6, e7, hb, hl⟩ := pump_spec c s h0 hd hnd
  refine ⟨by rw [e5]; exact hr, by rw [e6]; exact hf, ?_⟩
  rw [e4, e3, List.count_append]
  by_cases hpt : p ∈ s.queue.take m
  · have hpq : p ∈ s.queue := List.take_subset m s.queue hpt
    have hpi : p ∉ s.inFlight := hd p hpq
    have h1 : s.callsOf.count p = 0 := by rw [hc, if_neg hpi]
    have hnt : (s.queue.take m).Nodup := hnd.sublist (List.take_sublist m s.queue)
    have hle1 : (s.queue.take m).count p ≤ 1 := List.nodup_iff_count_le_one.mp hnt p
    have hge1 : 1 ≤ (s.queue.take m).count p := List.count_pos_iff.mpr hpt
    have hmem : p ∈ s.inFlight ++ s.queue.take m := List.mem_append.mpr (Or.inr hpt)
    rw [if_pos hmem]
    omega
  · have h2 : (s.queue.take m).count p = 0 := List.count_eq_zero.mpr hpt
    have : (p ∈ s.inFlight ++ s.queue.take m) ↔ p ∈ s.inFlight := by
      rw [List.mem_append]
      exact ⟨fun h => h.elim id fun h => absurd h hpt, Or.inl⟩
    rw [h2, hc]
    by_cases hpi : p ∈ s.inFlight
    · rw [if_pos hpi, if_pos (this.mpr hpi)]
    · rw [if_neg hpi, if_neg (fun h => hpi (this.mp h))]

theorem presP_pump (c p : Nat) (s : SchedState)
    (h0 : 0 ∉ s.queue) (hd : ∀ q ∈ s.queue, q ∉ s.inFlight) (hnd : s.queue.Nodup)
    (hP : PresP p s) : PresP p (pump c s) := by
  obtain ⟨m, hmle, e1, e2, e3, e4, e5, e6, e7, hb, hl⟩ := pump_spec c s h0 hd hnd
  rcases hP with hq | hi
  · rw [← List.take_append_drop m s.queue, List.mem_append] at hq
    rcases hq with hq | hq
    · exact Or.inr (by rw [e3]; exact List.mem_append.mpr (Or.inr hq))
    · exact Or.inl (by rw [e1]; exact hq)
  · exact Or.inr (by rw [e3]; exact List.mem_append.mpr (Or.inl hi))

/-- The pump preconditions hold for the queue with a fresh page pushed. -/
theorem queue_push_hyps (q : Nat) (s : SchedState)
    (hnd : s.queue.Nodup) (hd : ∀ r ∈ s.queue, r ∉ s.inFlight) (h0 : 0 ∉ s.queue)
    (hq0 : q ≠ 0) (hgq : q ∉ s.queue) (hgi : q ∉ s.inFlight) :
    0 ∉ s.queue ++ [q] ∧ (∀ r ∈ s.queue ++ [q], r ∉ s.inFlight) ∧
    (s.queue ++ [q]).Nodup := by
  refine ⟨?_, ?_, ?_⟩
  · intro h
    rcases List.mem_append.mp h with h | h
    · exact h0 h
    · exact hq0 (List.mem_singleton.mp h).symm
  · intro r hr
    rcases List.mem_append.mp hr with hr | hr
    · exact hd r hr
    · rw [List.mem_singleton.mp hr]; exact hgi
  · simpa [List.nodup_append] using ⟨hnd, fun h => hgq h⟩

theorem trackP_step (c p : Nat) (s : SchedState) (e : Event)
    (hInv : SchedInv c s) (he : wfEvent e = true)
    (hne1 : e ≠ .settle p true) (hne0 : e ≠ .settle p false)
    (hT : TrackP p s) : TrackP p (step c s e) := by
  obtain ⟨hnd, hd, h0, hif, hnp, hal, hac⟩ := hInv
  obtain ⟨hr, hf, hc⟩ := hT
  cases e with
  | notify q =>
    have hq0 : q ≠ 0 := by simpa [wfEvent] using he
    show TrackP p (observerNotify c q s)
    unfold observerNotify enqueue
    split
    · exact ⟨hr, hf, hc⟩
    · split
      · next hg =>
        obtain ⟨p0, pd, pn⟩ := queue_push_hyps q s hnd hd h0 hq0 hg.1 hg.2
        exact trackP_pump c p _ p0 pd pn ⟨hr, hf, hc⟩
      · exact ⟨hr, hf, hc⟩
  | settle q ok =>
    have hqp : q ≠ p := by
      rintro rfl
      cases ok
      · exact hne0 rfl
      · exact hne1 rfl
    show TrackP p (renderSettle c q ok s)
    unfold renderSettle
    split
    · next hqf =>
      refine trackP_pump c p _ ?_ ?_ ?_ ?_ <;> dsimp only
      · exact h0
      · exact fun r hrq hre => hd r hrq (List.erase_subset q s.inFlight hre)
      · exact hnd
      · refine ⟨?_, ?_, ?_⟩
        · cases ok <;>
            simp [List.count_append, hr, List.count_eq_zero.mpr
              (fun h => hqp (List.mem_singleton.mp h).symm)]
        · cases ok <;>
            simp [List.count_append, hf, List.count_eq_zero.mpr
              (fun h => hqp (List.mem_singleton.mp h).symm)]
        · rw [hc]
          by_cases hpi : p ∈ s.inFlight
          · rw [if_pos hpi, if_pos ((List.mem_erase_of_ne (Ne.symm hqp)).mpr hpi)]
          · rw [if_neg hpi, if_neg
              (fun h => hpi ((List.mem_erase_of_ne (Ne.symm hqp)).mp h))]
    · exact ⟨hr, hf, hc⟩
  | settleNoop =>
    show TrackP p (noopSettle c s)
    unfold noopSettle
    split
    · next h => rw [hnp] at h; exact absurd h (lt_irrefl 0)
    · exact ⟨hr, hf, hc⟩

theorem presP_step (c p : Nat) (s : SchedState) (e : Event)
    (hInv : SchedInv c s) (he : wfEvent e = true)
    (hne1 : e ≠ .settle p true) (hne0 : e ≠ .settle p false)
    (hP : PresP p s) : PresP p (step c s e) := by
  obtain ⟨hnd, hd, h0, hif, hnp, hal, hac⟩ := hInv
  cases e with
  | notify q =>
    have hq0 : q ≠ 0 := by simpa [wfEvent] using he
    show PresP p (observerNotify c q s)
    unfold observerNotify enqueue
    split
    · exact hP
    · split
      · next hg =>
        obtain ⟨p0, pd, pn⟩ := queue_push_hyps q s hnd hd h0 hq0 hg.1 hg.2
        refine presP_pump c p _ p0 pd pn ?_
        rcases hP with h | h
        · exact Or.inl (List.mem_append.mpr (Or.inl h))
        · exact Or.inr h
      · exact hP
  | settle q ok =>
    have hqp : q ≠ p := by
      rintro rfl
      cases ok
      · exact hne0 rfl
      · exact hne1 rfl
    show PresP p (renderSettle c q ok s)
    unfold renderSettle
    split
    · next hqf =>
      refine presP_pump c p _ ?_ ?_ ?_ ?_ <;> dsimp only
      · exact h0
      · exact fun r hrq hre => hd r hrq (List.erase_subset q s.inFlight hre)
      · exact hnd
      · rcases hP with h | h
        · exact Or.inl h
        · exact Or.inr ((List.mem_erase_of_ne (Ne.symm hqp)).mpr h)
    · exact hP
  | settleNoop =>
    show PresP p (noopSettle c s)
    unfold noopSettle
    split
    · next h => rw [hnp] at h; exact absurd h (lt_irrefl 0)
    · exact hP

/-- A proximity notification for a page that is not yet rendered
leaves that page pending: queued or in flight. -/
theorem presP_notify_self (c p : Nat) (s : SchedState)
    (hInv : SchedInv c s) (hp : p ≠ 0) (hr : p ∉ s.rendered) :
    PresP p (step c s (.notify p)) := by
  obtain ⟨hnd, hd, h0, hif, hnp, hal, hac⟩ := hInv
  show PresP p (observerNotify c p s)
  unfold observerNotify enqueue
  rw [if_neg hr]
  split
  · next hg =>
    obtain ⟨p0, pd, pn⟩ := queue_push_hyps p s hnd hd h0 hp hg.1 hg.2
    exact presP_pump c p _ p0 pd pn
      (Or.inl (List.mem_append.mpr (Or.inr (List.mem_singleton.mpr rfl))))
  · next hg =>
    by_cases h : p ∈ s.queue
    · exact Or.inl h
    · refine Or.inr ?_
      by_contra h2
      exact hg ⟨h, h2⟩

/-- Accounting and pendingness along any well-formed trace that never
settles page `p`. -/
theorem c2_runFrom (k p : Nat) (hp : p ≠ 0) (es : List Event) : ∀ s : SchedState,
    SchedInv k s → (∀ e ∈ es, wfEvent e = true) →
    Event.settle p true ∉ es → Event.settle p false ∉ es → TrackP p s →
    TrackP p (runFrom k s es) ∧
    ((PresP p s ∨ Event.notify p ∈ es) → PresP p (runFrom k s es)) := by
  induction es with
  | nil =>
    intro s hInv _ _ _ hT
    exact ⟨hT, fun h => h.elim id fun h => absurd h (List.not_mem_nil _)⟩
  | cons e es ih =>
    intro s hInv hwf hs1 hs0 hT
    have hwfe : wfEvent e = true := hwf e (List.mem_cons_self e es)
    have hne1 : e ≠ .settle p true := fun h => hs1 (by rw [← h]; exact List.mem_cons_self e es)
    have hne0 : e ≠ .settle p false := fun h => hs0 (by rw [← h]; exact List.mem_cons_self e es)
    obtain ⟨ihT, ihP⟩ := ih (step k s e) (inv_step k s e hwfe hInv)
      (fun x hx => hwf x (List.mem_cons_of_mem e hx))
      (fun h => hs1 (List.mem_cons_of_mem e h))
      (fun h => hs0 (List.mem_cons_of_mem e h))
      (trackP_step k p s e hInv hwfe hne1 hne0 hT)
    refine ⟨ihT, ?_⟩
    intro hcase
    apply ihP
    rcases hcase with hP | hmem
    · exact Or.inl (presP_step k p s e hInv hwfe hne1 hne0 hP)
    · rcases List.mem_cons.mp hmem with heq | hmem2
      · left
        have hr : p ∉ s.rendered := List.count_eq_zero.mp hT.1
        rw [← heq]
        exact presP_notify_self k p s hInv hp hr
      · exact Or.inr hmem2

/-- **C2.** For every page `p`, triggering a proximity notification
for `p` any number of times before `p`'s render settles results in at
most one render call for `p` — exactly one once `p` has been admitted
— with `p` otherwise still waiting in the queue; and `enqueue(p)` is a
no-op whenever `p` is already in the Render Queue or in flight. -/
theorem claim_C2_single_render (k p : Nat) (hk : 1 ≤ k) (hp : p ≠ 0) (es : List Event)
    (hwf : ∀ e ∈ es, wfEvent e = true)
    (hs1 : Event.settle p true ∉ es) (hs0 : Event.settle p false ∉ es)
    (hn : Event.notify p ∈ es) :
    (run k es).callsOf.count p ≤ 1 ∧
    (p ∈ (run k es).inFlight → (run k es).callsOf.count p = 1) ∧
    (p ∈ (run k es).queue ∨ p ∈ (run k es).inFlight) ∧
    (∀ t : SchedState, p ∈ t.queue ∨ p ∈ t.inFlight → enqueue k p t = t) := by
  have hT0 : TrackP p SchedState.init := by simp [TrackP, SchedState.init]
  obtain ⟨hT, hP⟩ := c2_runFrom k p hp es SchedState.init (inv_init k) hwf hs1 hs0 hT0
  have hpres : PresP p (run k es) := hP (Or.inr hn)
  obtain ⟨hr, hf, hc⟩ := hT
  simp only [run]
  refine ⟨?_, ?_, hpres, ?_⟩
  · rw [hc]; split <;> omega
  · intro hmem
    rw [hc, if_pos hmem]
  · intro t ht
    unfold enqueue
    rw [if_neg fun hcon => ht.elim (fun h => hcon.1 h) (fun h => hcon.2 h)]

theorem claim_C2_single_render_witness :
    (run 1 [.notify 1, .notify 1, .notify 1]).callsOf.count 1 ≤ 1 ∧
    (1 ∈ (run 1 [.notify 1, .notify 1, .notify 1]).inFlight →
      (run 1 [.notify 1, .notify 1, .notify 1]).callsOf.count 1 = 1) ∧
    (1 ∈ (run 1 [.notify 1, .notify 1, .notify 1]).queue ∨
      1 ∈ (run 1 [.notify 1, .notify 1, .notify 1]).inFlight) := by
  have h := claim_C2_single_render 1 1 (by decide) (by decide)
    [.notify 1, .notify 1, .notify 1] (by decide) (by decide) (by decide) (by decide)
  exact ⟨h.1, h.2.1, h.2.2.1⟩

/-! ## C4: FIFO admission -/

/-- Along any trace of pairwise-distinct, nonzero proximity
notifications, the admission trace followed by the pending queue is
exactly the notification order: pages are admitted in the order their
notifications were observed, and the queue holds the rest in that same
order. -/
theorem fifo_runFrom (k : Nat) (es : List Event) : ∀ s : SchedState,
    SchedInv k s →
    s.inFlight ⊆ s.callsOf → s.rendered ⊆ s.callsOf →
    ((s.callsOf ++ s.queue) ++ notifiedPages es).Nodup →
    0 ∉ notifiedPages es →
    (runFrom k s es).callsOf ++ (runFrom k s es).queue =
      (s.callsOf ++ s.queue) ++ notifiedPages es := by
  induction es with
  | nil => intro s _ _ _ _ _; simp [runFrom, notifiedPages]
  | cons e es ih =>
    intro s hInv hic hrc hbig h0n
    obtain ⟨hnd, hd, h0, hifn, hnp, hal, hac⟩ := hInv
    cases e with
    | notify q =>
      have hnotif : notifiedPages (Event.notify q :: es) = q :: notifiedPages es := rfl
      rw [hnotif] at hbig h0n ⊢
      have hq0 : q ≠ 0 := fun h => h0n (by rw [h]; exact List.mem_cons_self 0 _)
      have h0n2 : 0 ∉ notifiedPages es := fun h => h0n (List.mem_cons_of_mem _ h)
      have hbig2 := hbig
      rw [List.nodup_append] at hbig2
      have hqfresh : q ∉ s.callsOf ++ s.queue :=
        fun hq => hbig2.2.2 hq (List.mem_cons_self q _)
      have hqc : q ∉ s.callsOf := fun h => hqfresh (List.mem_append.mpr (Or.inl h))
      have hqq : q ∉ s.queue := fun h => hqfresh (List.mem_append.mpr (Or.inr h))
      have hqr : q ∉ s.rendered := fun h => hqc (hrc h)
      have hqi : q ∉ s.inFlight := fun h => hqc (hic h)
      have hstep : step k s (.notify q) = pump k { s with queue := s.queue ++ [q] } := by
        show observerNotify k q s = _
        unfold observerNotify enqueue
        rw [if_neg hqr, if_pos ⟨hqq, hqi⟩]
      obtain ⟨p0, pd, pn⟩ := queue_push_hyps q s hnd hd h0 hq0 hqq hqi
      obtain ⟨m, hmle, e1, e2, e3, e4, e5, e6, e7, hb, hl⟩ :=
        pump_spec k { s with queue := s.queue ++ [q] } p0 pd pn
      dsimp only at hmle e1 e2 e3 e4 e5 e6 e7 hb hl
      have hcq : (step k s (.notify q)).callsOf ++ (step k s (.notify q)).queue =
          (s.callsOf ++ s.queue) ++ [q] := by
        rw [hstep, e4, e1]
        simp [List.append_assoc, List.take_append_drop]
      have hInv2 : SchedInv k (step k s (.notify q)) :=
        inv_step k s _ (by simp [wfEvent, hq0]) ⟨hnd, hd, h0, hifn, hnp, hal, hac⟩
      have hic2 : (step k s (.notify q)).inFlight ⊆ (step k s (.notify q)).callsOf := by
        rw [hstep, e3, e4]
        intro a ha
        rcases List.mem_append.mp ha with ha | ha
        · exact List.mem_append.mpr (Or.inl (hic ha))
        · exact List.mem_append.mpr (Or.inr ha)
      have hrc2 : (step k s (.notify q)).rendered ⊆ (step k s (.notify q)).callsOf := by
        rw [hstep, e5, e4]
        exact fun a ha => List.mem_append.mpr (Or.inl (hrc ha))
      have hbig2' : (((step k s (.notify q)).callsOf ++ (step k s (.notify q)).queue) ++
          notifiedPages es).Nodup := by
        rw [hcq, ← List.append_cons]
        exact hbig
      calc (runFrom k s (.notify q :: es)).callsOf ++ (runFrom k s (.notify q :: es)).queue
          = (runFrom k (step k s (.notify q)) es).callsOf ++
            (runFrom k (step k s (.notify q)) es).queue := rfl
        _ = ((step k s (.notify q)).callsOf ++ (step k s (.notify q)).queue) ++
            notifiedPages es := ih _ hInv2 hic2 hrc2 hbig2' h0n2
        _ = ((s.callsOf ++ s.queue) ++ [q]) ++ notifiedPages es := by rw [hcq]
        _ = (s.callsOf ++ s.queue) ++ (q :: notifiedPages es) := by
            rw [← List.append_cons]
    | settle q ok =>
      have hnotif : notifiedPages (Event.settle q ok :: es) = notifiedPages es := rfl
      rw [hnotif] at hbig h0n ⊢
      by_cases hq : q ∈ s.inFlight
      · have hstep : step k s (.settle q ok) = pump k
            { s with rendered := if ok then s.rendered ++ [q] else s.rendered,
                     failed := if ok then s.failed else s.failed ++ [q],
                     inFlight := s.inFlight.erase q,
                     active := s.active - 1 } := by
          show renderSettle k q ok s = _
          unfold renderSettle
          rw [if_pos hq]
        obtain ⟨m, hmle, e1, e2, e3, e4, e5, e6, e7, hb, hl⟩ :=
          pump_spec k { s with rendered := if ok then s.rendered ++ [q] else s.rendered,
                               failed := if ok then s.failed else s.failed ++ [q],
                               inFlight := s.inFlight.erase q,
                               active := s.active - 1 }
            h0 (fun r hrq hre => hd r hrq (List.erase_subset q s.inFlight hre)) hnd
        dsimp only at hmle e1 e2 e3 e4 e5 e6 e7 hb hl
        have hcq : (step k s (.settle q ok)).callsOf ++ (step k s (.settle q ok)).queue =
            s.callsOf ++ s.queue := by
          rw [hstep, e4, e1]
          simp [List.append_assoc, List.take_append_drop]
        have hInv2 : SchedInv k (step k s (.settle q ok)) :=
          inv_step k s _ (by simp [wfEvent]) ⟨hnd, hd, h0, hifn, hnp, hal, hac⟩
        have hic2 : (step k s (.settle q ok)).inFlight ⊆
            (step k s (.settle q ok)).callsOf := by
          rw [hstep, e3, e4]
          intro a ha
          rcases List.mem_append.mp ha with ha | ha
          · exact List.mem_append.mpr (Or.inl (hic (List.erase_subset q s.inFlight ha)))
          · exact List.mem_append.mpr (Or.inr ha)
        have hrc2 : (step k s (.settle q ok)).rendered ⊆
            (step k s (.settle q ok)).callsOf := by
          rw [hstep, e5, e4]
          intro a ha
          refine List.mem_append.mpr (Or.inl ?_)
          cases ok with
          | true =>
            have ha2 : a ∈ s.rendered ∨ a = q := by simpa using ha
            rcases ha2 with h | h
            · exact hrc h
            · rw [h]; exact hic hq
          | false => exact hrc (by simpa using ha)
        have hbig2' : (((step k s (.settle q ok)).callsOf ++
            (step k s (.settle q ok)).queue) ++ notifiedPages es).Nodup := by
          rw [hcq]; exact hbig
        calc (runFrom k s (.settle q ok :: es)).callsOf ++
              (runFrom k s (.settle q ok :: es)).queue
            = ((step k s (.settle q ok)).callsOf ++ (step k s (.settle q ok)).queue) ++
              notifiedPages es := ih _ hInv2 hic2 hrc2 hbig2' h0n
          _ = (s.callsOf ++ s.queue) ++ notifiedPages es := by rw [hcq]
      · have hstep : step k s (.settle q ok) = s := by
          show renderSettle k q ok s = s
          unfold renderSettle
          rw [if_neg hq]
        have := ih s ⟨hnd, hd, h0, hifn, hnp, hal, hac⟩ hic hrc hbig h0n
        calc (runFrom k s (.settle q ok :: es)).callsOf ++
              (runFrom k s (.settle q ok :: es)).queue
            = (runFrom k (step k s (.settle q ok)) es).callsOf ++
              (runFrom k (step k s (.settle q ok)) es).queue := rfl
          _ = (s.callsOf ++ s.queue) ++ notifiedPages es := by rw [hstep]; exact this
    | settleNoop =>
      have hstep : step k s .settleNoop = s := by
        show noopSettle k s = s
        unfold noopSettle
        rw [if_neg (by rw [hnp]; exact lt_irrefl 0)]
      have := ih s ⟨hnd, hd, h0, hifn, hnp, hal, hac⟩ hic hrc hbig h0n
      calc (runFrom k s (.settleNoop :: es)).callsOf ++
            (runFrom k s (.settleNoop :: es)).queue
          = (runFrom k (step k s .settleNoop) es).callsOf ++
            (runFrom k (step k s .settleNoop) es).queue := rfl
        _ = (s.callsOf ++ s.queue) ++ notifiedPages es := by rw [hstep]; exact this

/-- **C4.** Admission is strict FIFO in observation order: along any
trace in which each page is notified at most once (pages nonzero), the
pages admitted to rendering, in admission order, followed by the pages
still queued, in queue order, are exactly the pages in notification
order — so the admission trace is a prefix of the observation order,
independent of numeric page order. -/
theorem claim_C4_fifo_admission (k : Nat) (hk : 1 ≤ k) (es : List Event)
    (hndn : (notifiedPages es).Nodup) (h0 : 0 ∉ notifiedPages es) :
    (run k es).callsOf ++ (run k es).queue = notifiedPages es ∧
    (run k es).callsOf = (notifiedPages es).take (run k es).callsOf.length := by
  have h := fifo_runFrom k es SchedState.init (inv_init k)
    (by simp [SchedState.init]) (by simp [SchedState.init])
    (by simpa [SchedState.init] using hndn) h0
  have h2 : (run k es).callsOf ++ (run k es).queue = notifiedPages es := by
    simpa [run, SchedState.init] using h
  exact ⟨h2, by rw [← h2, List.take_left]⟩

theorem claim_C4_fifo_admission_witness :
    (run 2 [.notify 3, .notify 1, .notify 5, .notify 2, .notify 4]).callsOf = [3, 1] ∧
    (run 2 [.notify 3, .notify 1, .notify 5, .notify 2, .notify 4,
      .settle 3 true]).callsOf = [3, 1, 5] ∧
    (run 2 [.notify 3, .notify 1, .notify 5, .notify 2, .notify 4, .settle 3 true,
      .settle 1 true, .settle 5 true, .settle 2 true, .settle 4 true]).callsOf ++
      (run 2 [.notify 3, .notify 1, .notify 5, .notify 2, .notify 4, .settle 3 true,
        .settle 1 true, .settle 5 true, .settle 2 true, .settle 4 true]).queue =
      notifiedPages [.notify 3, .notify 1, .notify 5, .notify 2, .notify 4,
        .settle 3 true, .settle 1 true, .settle 5 true, .settle 2 true,
        .settle 4 true] :=
  ⟨by decide, by decide,
    (claim_C4_fifo_admission 2 (by decide) _ (by decide) (by decide)).1⟩

/-! ## C3: behaviour after a settled render -/

/-- **C3 (counterexample).** The claim fails for pages settled as
`failed`: with limit 2, page 1 is notified, admitted, and settles as
failed (one render call, an inline error recorded, no
`pdf-page-rendered` class); a later proximity notification for page 1
re-enqueues it and produces a second render call — the observer only
skips holders carrying the `pdf-page-rendered` class, and `enqueue`
only checks the queue and the in-flight set. -/
theorem claim_C3_settled_no_reenqueue_cex :
    (run 2 [.notify 1, .settle 1 false]).failed = [1] ∧
    (run 2 [.notify 1, .settle 1 false]).callsOf = [1] ∧
    (run 2 [.notify 1, .settle 1 false, .notify 1]).callsOf = [1, 1] := by
  decide

/-- **C3 (amended).** After a page settles as `rendered`, a later
proximity notification for it is a no-op.  Settling as `failed` does
not by itself requeue the page (no automatic retry): right after the
settlement the page is neither queued nor in flight.  But — unlike
the original claim — a later proximity notification for a failed page
is re-enqueued: with a free slot and an empty queue it immediately
causes another render call. -/
theorem claim_C3_settled_no_reenqueue_amended (k p : Nat) (s : SchedState)
    (hInv : SchedInv k s) :
    (p ∈ s.rendered → step k s (.notify p) = s) ∧
    (p ∈ s.inFlight →
      p ∉ (step k s (.settle p false)).queue ∧
      p ∉ (step k s (.settle p false)).inFlight) ∧
    (p ∉ s.rendered → p ∉ s.inFlight → s.queue = [] → p ≠ 0 → s.active < k →
      (step k s (.notify p)).callsOf = s.callsOf ++ [p]) := by
  obtain ⟨hnd, hd, h0, hifn, hnp, hal, hac⟩ := hInv
  refine ⟨?_, ?_, ?_⟩
  · intro hr
    show observerNotify k p s = s
    unfold observerNotify
    rw [if_pos hr]
  · intro hpf
    have hpq : p ∉ s.queue := fun hq => hd p hq hpf
    show p ∉ (renderSettle k p false s).queue ∧ p ∉ (renderSettle k p false s).inFlight
    have hstep : renderSettle k p false s = pump k
        { s with rendered := s.rendered, failed := s.failed ++ [p],
                 inFlight := s.inFlight.erase p, active := s.active - 1 } := by
      unfold renderSettle
      rw [if_pos hpf]
      rfl
    obtain ⟨m, hmle, e1, e2, e3, e4, e5, e6, e7, hb, hl⟩ :=
      pump_spec k { s with rendered := s.rendered, failed := s.failed ++ [p],
                           inFlight := s.inFlight.erase p, active := s.active - 1 }
        h0 (fun r hrq hre => hd r hrq (List.erase_subset p s.inFlight hre)) hnd
    dsimp only at e1 e3
    constructor
    · rw [hstep, e1]
      exact fun h => hpq (List.drop_subset m s.queue h)
    · rw [hstep, e3]
      intro h
      rcases List.mem_append.mp h with h | h
      · exact hifn.not_mem_erase h
      · exact hpq (List.take_subset m s.queue h)
  · intro hnr hnf hqe hp0 hflt
    show (observerNotify k p s).callsOf = s.callsOf ++ [p]
    unfold observerNotify enqueue
    rw [if_neg hnr, if_pos ⟨by rw [hqe]; exact List.not_mem_nil p, hnf⟩, hqe]
    simp [pump, pumpFuel, hflt, hp0, hnf]

theorem claim_C3_settled_no_reenqueue_amended_witness :
    step 2 ⟨[], 1, [2], [1], [], 0, [2]⟩ (.notify 1) = ⟨[], 1, [2], [1], [], 0, [2]⟩ ∧
    (2 ∉ (step 2 ⟨[], 1, [2], [1], [], 0, [2]⟩ (.settle 2 false)).queue ∧
     2 ∉ (step 2 ⟨[], 1, [2], [1], [], 0, [2]⟩ (.settle 2 false)).inFlight) ∧
    (step 2 ⟨[], 1, [2], [1], [], 0, [2]⟩ (.notify 3)).callsOf = [2, 3] := by
  refine ⟨?_, ?_, ?_⟩
  · exact (claim_C3_settled_no_reenqueue_amended 2 1 _ (by decide)).1 (by decide)
  · exact (claim_C3_settled_no_reenqueue_amended 2 2 _ (by decide)).2.1 (by decide)
  · exact (claim_C3_settled_no_reenqueue_amended 2 3 _ (by decide)).2.2
      (by decide) (by decide) (by decide) (by decide) (by decide)

/-! ## C6: failure isolation -/

/-- Two scheduler states that agree everywhere except, possibly, on
the placeholder outcome records (`rendered` class / inline errors) of
the single page `p`. -/
def EquivExcept (p : Nat) (s t : SchedState) : Prop :=
  s.queue = t.queue ∧ s.active = t.active ∧ s.inFlight = t.inFlight ∧
  s.noops = t.noops ∧ s.callsOf = t.callsOf ∧
  ∀ q, q ≠ p → s.rendered.count q = t.rendered.count q ∧
    s.failed.count q = t.failed.count q

theorem pumpFuel_congr (c p : Nat) : ∀ (fuel : Nat) (s t : SchedState),
    EquivExcept p s t → EquivExcept p (pumpFuel c fuel s) (pumpFuel c fuel t) := by
  intro fuel
  induction fuel with
  | zero => intro s t h; exact h
  | succ fuel ih =>
    intro s t h
    obtain ⟨Qs, As, Fs, Rs, FLs, Ns, Cs⟩ := s
    obtain ⟨Qt, At, Ft, Rt, FLt, Nt, Ct⟩ := t
    obtain ⟨hq, ha, hi, hn, hc, hrf⟩ := h
    dsimp only at hq ha hi hn hc hrf
    subst hq ha hi hn hc
    show EquivExcept p (pumpFuel c (fuel + 1) ⟨Qs, As, Fs, Rs, FLs, Ns, Cs⟩)
      (pumpFuel c (fuel + 1) ⟨Qs, As, Fs, Rt, FLt, Ns, Cs⟩)
    unfold pumpFuel
    by_cases hac : As < c
    · rw [if_pos hac, if_pos hac]
      cases Qs with
      | nil => exact ⟨rfl, rfl, rfl, rfl, rfl, hrf⟩
      | cons x rest =>
        dsimp only
        by_cases hx0 : x = 0
        · rw [if_pos hx0, if_pos hx0]
          exact ⟨rfl, rfl, rfl, rfl, rfl, hrf⟩
        · rw [if_neg hx0, if_neg hx0]
          by_cases hxf : x ∈ Fs
          · rw [if_pos hxf, if_pos hxf]
            exact ih _ _ ⟨rfl, rfl, rfl, rfl, rfl, hrf⟩
          · rw [if_neg hxf, if_neg hxf]
            exact ih _ _ ⟨rfl, rfl, rfl, rfl, rfl, hrf⟩
    · rw [if_neg hac, if_neg hac]
      exact ⟨rfl, rfl, rfl, rfl, rfl, hrf⟩

theorem pump_congr (c p : Nat) (s t : SchedState) (h : EquivExcept p s t) :
    EquivExcept p (pump c s) (pump c t) := by
  unfold pump
  rw [h.1]
  exact pumpFuel_congr c p t.queue.length s t h

/-- Any event other than a proximity notification for `p` acts
identically on states that differ only at `p`'s placeholder. -/
theorem step_congr (c p : Nat) (s t : SchedState) (e : Event)
    (hne : e ≠ .notify p) (h : EquivExcept p s t) :
    EquivExcept p (step c s e) (step c t e) := by
  obtain ⟨hq, ha, hi, hn, hc, hrf⟩ := h
  cases e with
  | notify x =>
    have hxp : x ≠ p := fun hx => hne (by rw [hx])
    show EquivExcept p (observerNotify c x s) (observerNotify c x t)
    unfold observerNotify enqueue
    have hmem : x ∈ s.rendered ↔ x ∈ t.rendered := by
      rw [← List.count_pos_iff, ← List.count_pos_iff, (hrf x hxp).1]
    by_cases hxr : x ∈ s.rendered
    · rw [if_pos hxr, if_pos (hmem.mp hxr)]
      exact ⟨hq, ha, hi, hn, hc, hrf⟩
    · rw [if_neg hxr, if_neg (fun hh => hxr (hmem.mpr hh))]
      by_cases hg : x ∉ s.queue ∧ x ∉ s.inFlight
      · rw [if_pos hg, if_pos (by rw [← hq, ← hi]; exact hg)]
        exact pump_congr c p _ _ ⟨by dsimp only; rw [hq], ha, hi, hn, hc, hrf⟩
      · rw [if_neg hg, if_neg (by rw [← hq, ← hi]; exact hg)]
        exact ⟨hq, ha, hi, hn, hc, hrf⟩
  | settle x ok =>
    have hxiff : x ∈ s.inFlight ↔ x ∈ t.inFlight := by rw [hi]
    show EquivExcept p (renderSettle c x ok s) (renderSettle c x ok t)
    unfold renderSettle
    by_cases hxf : x ∈ s.inFlight
    · rw [if_pos hxf, if_pos (hxiff.mp hxf)]
      show EquivExcept p
        (pump c { s with rendered := if ok then s.rendered ++ [x] else s.rendered,
                         failed := if ok then s.failed else s.failed ++ [x],
                         inFlight := s.inFlight.erase x, active := s.active - 1 })
        (pump c { t with rendered := if ok then t.rendered ++ [x] else t.rendered,
                         failed := if ok then t.failed else t.failed ++ [x],
                         inFlight := t.inFlight.erase x, active := t.active - 1 })
      refine pump_congr c p _ _ ⟨hq, by dsimp only; rw [ha],
        by dsimp only; rw [hi], hn, hc, ?_⟩
      intro q hqp
      obtain ⟨h1, h2⟩ := hrf q hqp
      cases ok <;> simp [List.count_append, h1, h2]
    · rw [if_neg hxf, if_neg (fun hh => hxf (hxiff.mpr hh))]
      exact ⟨hq, ha, hi, hn, hc, hrf⟩
  | settleNoop =>
    show EquivExcept p (noopSettle c s) (noopSettle c t)
    unfold noopSettle
    by_cases hn0 : 0 < s.noops
    · rw [if_pos hn0, if_pos (by rw [← hn]; exact hn0)]
      exact pump_congr c p _ _ ⟨hq, by dsimp only; rw [ha], hi,
        by dsimp only; rw [hn], hc, hrf⟩
    · rw [if_neg hn0, if_neg (by rw [← hn]; exact hn0)]
      exact ⟨hq, ha, hi, hn, hc, hrf⟩

theorem runFrom_congr (c p : Nat) (es : List Event)
    (hes : Event.notify p ∉ es) : ∀ s t : SchedState, EquivExcept p s t →
    EquivExcept p (runFrom c s es) (runFrom c t es) := by
  induction es with
  | nil => intro s t h; exact h
  | cons e es ih =>
    intro s t h
    have hne : e ≠ .notify p :=
      fun hh => hes (by rw [← hh]; exact List.mem_cons_self e es)
    exact ih (fun hh => hes (List.mem_cons_of_mem e hh)) _ _ (step_congr c p s t e hne h)

/-- **C6.** A render failure of one page `p` is isolated: the inline
error is recorded only at `p`'s placeholder (the `rendered` record is
untouched), `p` leaves the in-flight set so its slot is freed, no
queued page is dropped (each stays queued or is admitted) and no other
in-flight page is cancelled, the scheduler keeps admitting (it only
stops with a free slot when the queue is empty), and — compared with
the same settlement succeeding — every subsequent evolution that does
not re-notify `p` is identical except at `p`'s own placeholder, so
every other page's eventual outcome is unaffected. -/
theorem claim_C6_failure_isolated (k p : Nat) (s : SchedState)
    (hInv : SchedInv k s) (hp : p ∈ s.inFlight) (es : List Event)
    (hes : Event.notify p ∉ es) :
    (step k s (.settle p false)).failed = s.failed ++ [p] ∧
    (step k s (.settle p false)).rendered = s.rendered ∧
    p ∉ (step k s (.settle p false)).inFlight ∧
    (∀ q ∈ s.queue, q ∈ (step k s (.settle p false)).queue ∨
      q ∈ (step k s (.settle p false)).inFlight) ∧
    (∀ q ∈ s.inFlight, q ≠ p → q ∈ (step k s (.settle p false)).inFlight) ∧
    ((step k s (.settle p false)).active < k →
      (step k s (.settle p false)).queue = []) ∧
    EquivExcept p (runFrom k (step k s (.settle p false)) es)
      (runFrom k (step k s (.settle p true)) es) := by
  obtain ⟨hnd, hd, h0, hifn, hnp, hal, hac⟩ := hInv
  have hpq : p ∉ s.queue := fun hq => hd p hq hp
  have hstepf : step k s (.settle p false) = pump k
      { s with rendered := s.rendered, failed := s.failed ++ [p],
               inFlight := s.inFlight.erase p, active := s.active - 1 } := by
    show renderSettle k p false s = _
    unfold renderSettle
    rw [if_pos hp]
    rfl
  have hstept : step k s (.settle p true) = pump k
      { s with rendered := s.rendered ++ [p], failed := s.failed,
               inFlight := s.inFlight.erase p, active := s.active - 1 } := by
    show renderSettle k p true s = _
    unfold renderSettle
    rw [if_pos hp]
    rfl
  obtain ⟨m, hmle, e1, e2, e3, e4, e5, e6, e7, hb, hl⟩ :=
    pump_spec k { s with rendered := s.rendered, failed := s.failed ++ [p],
                         inFlight := s.inFlight.erase p, active := s.active - 1 }
      h0 (fun r hrq hre => hd r hrq (List.erase_subset p s.inFlight hre)) hnd
  dsimp only at e1 e2 e3 e4 e5 e6 e7 hb hl
  refine ⟨?_, ?_, ?_, ?_, ?_, ?_, ?_⟩
  · rw [hstepf, e6]
  · rw [hstepf, e5]
  · rw [hstepf, e3]
    intro h
    rcases List.mem_append.mp h with h | h
    · exact hifn.not_mem_erase h
    · exact hpq (List.take_subset m s.queue h)
  · intro q hq
    rw [hstepf, e1, e3]
    rw [← List.take_append_drop m s.queue, List.mem_append] at hq
    rcases hq with hq | hq
    · exact Or.inr (List.mem_append.mpr (Or.inr hq))
    · exact Or.inl hq
  · intro q hq hqp
    rw [hstepf, e3]
    exact List.mem_append.mpr (Or.inl ((List.mem_erase_of_ne hqp).mpr hq))
  · rw [hstepf]
    exact hl
  · refine runFrom_congr k p es hes _ _ ?_
    rw [hstepf, hstept]
    refine pump_congr k p _ _ ⟨rfl, rfl, rfl, rfl, rfl, ?_⟩
    intro q hqp
    constructor <;>
      simp [List.count_append, List.count_eq_zero.mpr
        (fun h : q ∈ [p] => hqp (List.mem_singleton.mp h))]

theorem claim_C6_failure_isolated_witness :
    (step 2 ⟨[3], 2, [1, 2], [], [], 0, [1, 2]⟩ (.settle 1 false)).failed = [1] ∧
    (step 2 ⟨[3], 2, [1, 2], [], [], 0, [1, 2]⟩ (.settle 1 false)).rendered = [] ∧
    1 ∉ (step 2 ⟨[3], 2, [1, 2], [], [], 0, [1, 2]⟩ (.settle 1 false)).inFlight ∧
    (3 ∈ (step 2 ⟨[3], 2, [1, 2], [], [], 0, [1, 2]⟩ (.settle 1 false)).queue ∨
     3 ∈ (step 2 ⟨[3], 2, [1, 2], [], [], 0, [1, 2]⟩ (.settle 1 false)).inFlight) ∧
    2 ∈ (step 2 ⟨[3], 2, [1, 2], [], [], 0, [1, 2]⟩ (.settle 1 false)).inFlight ∧
    EquivExcept 1
      (runFrom 2 (step 2 ⟨[3], 2, [1, 2], [], [], 0, [1, 2]⟩ (.settle 1 false))
        [.settle 2 true])
      (runFrom 2 (step 2 ⟨[3], 2, [1, 2], [], [], 0, [1, 2]⟩ (.settle 1 true))
        [.settle 2 true]) := by
  have h := claim_C6_failure_isolated 2 1 ⟨[3], 2, [1, 2], [], [], 0, [1, 2]⟩
    (by decide) (by decide) [.settle 2 true] (by decide)
  exact ⟨h.1, h.2.1, h.2.2.1, h.2.2.2.1 3 (by decide),
    h.2.2.2.2.1 2 (by decide) (by decide), h.2.2.2.2.2.2⟩

/-! ## Source-size validation: `toArrayBufferWithSize` -/

/-- Result of JavaScript `Number(...)` applied to the
`content-length` header: `NaN`, or a numeric value (`Number(null)` is
`0` when the header is absent). -/
inductive JsNum where
  | nan
  | num (v : Int)
  deriving DecidableEq, Repr

/-- A PDF source as dispatched by `toArrayBufferWithSize` (part_001
lines 31–64): a URL string (with the fetch's success flag, HTTP
status, parsed `content-length` and actual body byte length), a Blob,
an ArrayBuffer, a TypedArray view (its own `byteLength` and the byte
length of its whole underlying `buffer`), or an unsupported value. -/
inductive PdfSource where
  | url (resOk : Bool) (status : Nat) (contentLength : JsNum) (bodyLen : Nat)
  | blob (size : Nat) (bodyLen : Nat)
  | arrayBuffer (byteLength : Nat)
  | typedArray (byteLength : Nat) (bufferByteLength : Nat)
  | unsupported
  deriving DecidableEq, Repr

/-- The distinct `throw` sites of `toArrayBufferWithSize`. -/
inductive LoadErr where
  | fetchFailed (status : Nat)
  | tooSmall (size : Int) (minBytes : Nat)
  | unsupportedSource
  deriving DecidableEq, Repr

/-- Success (byte length of the buffer handed to `getDocument`) or
the thrown error. -/
inductive LoadResult where
  | ok (byteLength : Nat)
  | error (e : LoadErr)
  deriving DecidableEq, Repr

/-- Outcome of `toArrayBufferWithSize`, plus whether the body was
materialized (`res.arrayBuffer()` / `input.arrayBuffer()` reached). -/
structure LoadOutcome where
  result   : LoadResult
  bodyRead : Bool
  deriving DecidableEq, Repr

/-- The `toArrayBufferWithSize` helper (part_001 lines 31–65).  For a URL: fail
on `!res.ok`; then, if the `content-length` header parses to a
positive number below `minBytes`, throw the size error before reading
the body; otherwise read the body and check its byte length.  A Blob
is checked on `.size` before `arrayBuffer()`.  An ArrayBuffer is
checked on `.byteLength` and returned as-is.  A TypedArray view is
checked on its `.byteLength` (`input.byteLength ?? ...` — the first
alternative always applies to a view) but the value returned is
`input.buffer`, the whole underlying buffer. -/
def toArrayBufferWithSize (minBytes : Nat) (input : PdfSource) : LoadOutcome :=
  match input with
  | .url resOk status contentLength bodyLen =>
    if resOk = false then ⟨.error (.fetchFailed status), false⟩
    else
      match contentLength with
      | .nan =>
        if bodyLen < minBytes then ⟨.error (.tooSmall bodyLen minBytes), true⟩
        else ⟨.ok bodyLen, true⟩
      | .num v =>
        if 0 < v ∧ v < (minBytes : Int) then ⟨.error (.tooSmall v minBytes), false⟩
        else if bodyLen < minBytes then ⟨.error (.tooSmall bodyLen minBytes), true⟩
        else ⟨.ok bodyLen, true⟩
  | .blob size bodyLen =>
    if size < minBytes then ⟨.error (.tooSmall size minBytes), false⟩
    else ⟨.ok bodyLen, true⟩
  | .arrayBuffer n =>
    if n < minBytes then ⟨.error (.tooSmall n minBytes), false⟩
    else ⟨.ok n, false⟩
  | .typedArray bl bbl =>
    if bl < minBytes then ⟨.error (.tooSmall bl minBytes), false⟩
    else ⟨.ok bbl, false⟩
  | .unsupported => ⟨.error .unsupportedSource, false⟩

/-- What the load/initialize phase of `renderPDFLazy` produced. -/
structure LazyInit where
  placeholders    : Nat
  containerErrors : Nat
  handle          : Option Unit
  deriving DecidableEq, Repr

/-- The load/initialize phase of `renderPDFLazy` (part_001 lines
70–198): placeholders (one per page, lines 81–99) are created only
after `toArrayBufferWithSize` succeeds and the document opens
(`getDocument` / `getPage(1)` / `getViewport`, abstracted by
`openOk`); on any fatal error the catch block (lines 190–195) appends
one `.pdf-error` element to the container and the function falls
through, resolving to `undefined`; on success it returns the teardown
object exposing `disconnect()` (lines 185–189). -/
def renderPDFLazyInit (minBytes numPages : Nat) (openOk : Bool)
    (src : PdfSource) : LazyInit :=
  match (toArrayBufferWithSize minBytes src).result with
  | .error _ => ⟨0, 1, none⟩
  | .ok _ => if openOk then ⟨numPages, 0, some ()⟩ else ⟨0, 1, none⟩

/-- **C5.** A source reporting a size strictly below the configured
minimum fails with the size error before any placeholder is created
(for every source kind); and a URL response carrying a positive
`content-length` hint below the minimum fails before the body is
read.  A URL whose body is undersized always fails with a size error
(whatever the hint said). -/
theorem claim_C5_size_rejection (m numPages : Nat) (openOk : Bool) :
    (∀ size body, size < m →
      (toArrayBufferWithSize m (.blob size body)).result =
        .error (.tooSmall size m)) ∧
    (∀ n, n < m →
      (toArrayBufferWithSize m (.arrayBuffer n)).result =
        .error (.tooSmall n m)) ∧
    (∀ bl bbl, bl < m →
      (toArrayBufferWithSize m (.typedArray bl bbl)).result =
        .error (.tooSmall bl m)) ∧
    (∀ st hint body, body < m →
      ∃ sz, (toArrayBufferWithSize m (.url true st hint body)).result =
        .error (.tooSmall sz m)) ∧
    (∀ st body (v : Int), 0 < v → v < (m : Int) →
      toArrayBufferWithSize m (.url true st (.num v) body) =
        ⟨.error (.tooSmall v m), false⟩) ∧
    (∀ src e, (toArrayBufferWithSize m src).result = .error e →
      (renderPDFLazyInit m numPages openOk src).placeholders = 0 ∧
      (renderPDFLazyInit m numPages openOk src).containerErrors = 1) := by
  refine ⟨?_, ?_, ?_, ?_, ?_, ?_⟩
  · intro size body h
    simp [toArrayBufferWithSize, h]
  · intro n h
    simp [toArrayBufferWithSize, h]
  · intro bl bbl h
    simp [toArrayBufferWithSize, h]
  · intro st hint body h
    cases hint with
    | nan => exact ⟨body, by simp [toArrayBufferWithSize, h]⟩
    | num v =>
      by_cases hv : 0 < v ∧ v < (m : Int)
      · exact ⟨v, by simp [toArrayBufferWithSize, hv]⟩
      · exact ⟨body, by simp [toArrayBufferWithSize, hv, h]⟩
  · intro st body v hv1 hv2
    simp [toArrayBufferWithSize, hv1, hv2]
  · intro src e h
    unfold renderPDFLazyInit
    rw [h]
    exact ⟨rfl, rfl⟩

theorem claim_C5_size_rejection_witness :
    (toArrayBufferWithSize 5120 (.blob 4096 4096)).result =
      .error (.tooSmall 4096 5120) ∧
    toArrayBufferWithSize 5120 (.url true 200 (.num 4096) 4096) =
      ⟨.error (.tooSmall 4096 5120), false⟩ ∧
    (renderPDFLazyInit 5120 5 true (.blob 4096 4096)).placeholders = 0 ∧
    (renderPDFLazyInit 5120 5 true (.blob 4096 4096)).containerErrors = 1 := by
  have h := claim_C5_size_rejection 5120 5 true
  refine ⟨h.1 4096 4096 (by decide),
    h.2.2.2.2.1 200 4096 4096 (by decide) (by decide), ?_, ?_⟩
  · exact (h.2.2.2.2.2 _ _ (h.1 4096 4096 (by decide))).1
  · exact (h.2.2.2.2.2 _ _ (h.1 4096 4096 (by decide))).2

/-- **C8.** `renderPDFLazy` resolves to the teardown object exposing
`disconnect()` exactly when source validation and document open both
succeed (placeholder creation itself cannot fail); on any fatal error
it catches the error, appends one `.pdf-error` message to the
container, creates no placeholders, and resolves to `undefined`, so
the caller receives no disconnect handle. -/
theorem claim_C8_teardown_handle (m numPages : Nat) (openOk : Bool)
    (src : PdfSource) :
    ((renderPDFLazyInit m numPages openOk src).handle = some () ↔
      (∃ n, (toArrayBufferWithSize m src).result = .ok n) ∧ openOk = true) ∧
    ((renderPDFLazyInit m numPages openOk src).handle = none →
      (renderPDFLazyInit m numPages openOk src).containerErrors = 1 ∧
      (renderPDFLazyInit m numPages openOk src).placeholders = 0) := by
  unfold renderPDFLazyInit
  cases hres : (toArrayBufferWithSize m src).result with
  | ok n => cases openOk <;> simp [hres]
  | error e => simp [hres]

theorem claim_C8_teardown_handle_witness :
    (renderPDFLazyInit 5120 5 true (.arrayBuffer 8192)).handle = some () ∧
    (renderPDFLazyInit 5120 5 false (.arrayBuffer 8192)).containerErrors = 1 ∧
    (renderPDFLazyInit 5120 5 false (.arrayBuffer 8192)).placeholders = 0 := by
  refine ⟨?_, ?_, ?_⟩
  · exact ((claim_C8_teardown_handle 5120 5 true (.arrayBuffer 8192)).1).mpr
      ⟨⟨8192, by decide⟩, rfl⟩
  · exact ((claim_C8_teardown_handle 5120 5 false (.arrayBuffer 8192)).2
      (by decide)).1
  · exact ((claim_C8_teardown_handle 5120 5 false (.arrayBuffer 8192)).2
      (by decide)).2

/-- **C9.** For a TypedArray view the minimum-size validation is
performed against the view's own `byteLength`, but the value handed to
the document-open call is the view's entire underlying `buffer`: a
large-enough view is accepted and the returned buffer is the full
`buffer.byteLength` (which may exceed the validated region), while an
undersized view is rejected on its `byteLength` no matter how large
the underlying buffer is. -/
theorem claim_C9_typedarray_whole_buffer (m bl bbl : Nat) :
    (m ≤ bl → toArrayBufferWithSize m (.typedArray bl bbl) = ⟨.ok bbl, false⟩) ∧
    (bl < m → (toArrayBufferWithSize m (.typedArray bl bbl)).result =
      .error (.tooSmall bl m)) := by
  constructor
  · intro h
    simp [toArrayBufferWithSize, Nat.not_lt.mpr h]
  · intro h
    simp [toArrayBufferWithSize, h]

theorem claim_C9_typedarray_whole_buffer_witness :
    toArrayBufferWithSize 8 (.typedArray 16 4096) = ⟨.ok 4096, false⟩ ∧
    (toArrayBufferWithSize 8 (.typedArray 4 4096)).result =
      .error (.tooSmall 4 8) :=
  ⟨(claim_C9_typedarray_whole_buffer 8 16 4096).1 (by decide),
   (claim_C9_typedarray_whole_buffer 8 4 4096).2 (by decide)⟩

/-! ## C7: placeholder aspect ratio -/

/-- A page's viewport dimensions. -/
structure Viewport where
  width : ℚ
  height : ℚ
  deriving DecidableEq, Repr

/-- Model of `page.getViewport({ scale })`: both dimensions scale linearly. -/
def getViewport (scale : ℚ) (base : Viewport) : Viewport :=
  ⟨scale * base.width, scale * base.height⟩

/-- part_001 lines 76–78: the aspect ratio is computed once, from the
FIRST page's viewport at the chosen scale. -/
def docAspect (scale : ℚ) (pages : Nat → Viewport) : ℚ :=
  (getViewport scale (pages 1)).height / (getViewport scale (pages 1)).width

/-- part_001 lines 88–90: every page `i` gets a sizer with
`paddingTop = aspectRatio * 100 %`, using the document-wide
`docAspect` above. -/
def sizerPaddingTop (scale : ℚ) (pages : Nat → Viewport) (i : Nat) : ℚ :=
  docAspect scale pages * 100

/-- Page `i`'s own height/width ratio at the configured scale. -/
def pageAspect (scale : ℚ) (pages : Nat → Viewport) (i : Nat) : ℚ :=
  (getViewport scale (pages i)).height / (getViewport scale (pages i)).width

/-- Document whose pages differ in shape: page 1 is square, page 2 is
twice as tall as it is wide. -/
def mixedPages : Nat → Viewport := fun i => if i = 2 then ⟨100, 200⟩ else ⟨100, 100⟩

/-- **C7 (counterexample).** In a document whose page 2 has a
different shape than page 1, page 2's placeholder is sized with
page 1's ratio (paddingTop 100%), not its own (which would be 200%):
the claim that each placeholder preserves that page's own aspect
ratio fails. -/
theorem claim_C7_own_ratio_cex :
    sizerPaddingTop (3 / 2) mixedPages 2 = 100 ∧
    pageAspect (3 / 2) mixedPages 2 * 100 = 200 ∧
    sizerPaddingTop (3 / 2) mixedPages 2 ≠ pageAspect (3 / 2) mixedPages 2 * 100 := by
  refine ⟨?_, ?_, ?_⟩ <;>
    norm_num [sizerPaddingTop, docAspect, pageAspect, getViewport, mixedPages]

/-- **C7 (amended).** Every placeholder is sized with the FIRST
page's aspect ratio at the configured scale: the padding is uniform
across pages and equals page 1's height/width times 100, so a page's
placeholder preserves that page's own ratio exactly when its ratio
coincides with page 1's (as in the common all-pages-same-size
document). -/
theorem claim_C7_own_ratio_amended (scale : ℚ) (pages : Nat → Viewport) (i j : Nat) :
    sizerPaddingTop scale pages i = sizerPaddingTop scale pages j ∧
    sizerPaddingTop scale pages i = pageAspect scale pages 1 * 100 ∧
    (pageAspect scale pages i = pageAspect scale pages 1 →
      sizerPaddingTop scale pages i = pageAspect scale pages i * 100) := by
  refine ⟨rfl, rfl, ?_⟩
  intro h
  rw [show sizerPaddingTop scale pages i = pageAspect scale pages 1 * 100 from rfl, h]

theorem claim_C7_own_ratio_amended_witness :
    sizerPaddingTop (3 / 2) mixedPages 3 = sizerPaddingTop (3 / 2) mixedPages 1 ∧
    sizerPaddingTop (3 / 2) mixedPages 3 = pageAspect (3 / 2) mixedPages 1 * 100 ∧
    sizerPaddingTop (3 / 2) mixedPages 3 = pageAspect (3 / 2) mixedPages 3 * 100 := by
  have h := claim_C7_own_ratio_amended (3 / 2) mixedPages 3 1
  exact ⟨h.1, h.2.1, h.2.2 (by norm_num [pageAspect, getViewport, mixedPages])⟩

/-! ## C10: the parallel variant appends canvases in page order -/

/-- Completion log of the page-render tasks of part_000: each entry
records a task index settling with its result, in settlement order
(task `i` renders page `i + 1`). -/
def taskLog {α : Type} (results : Nat → α) (settleOrder : List Nat) :
    List (Nat × α) :=
  settleOrder.map fun i => (i, results i)

/-- Model of `Promise.all` over `n` tasks: the resolved array holds task `i`'s
result at index `i`, read out of the completion log by task index
(`dflt` stands for a never-settled slot). -/
def promiseAll {α : Type} (n : Nat) (dflt : α) (log : List (Nat × α)) : List α :=
  (List.range n).map fun i => (log.lookup i).getD dflt

/-- part_000 lines 17–40 (`renderPDF`): build `numPages` render tasks
with `Array.from` (task `i` renders page `i + 1`), await them all via
`Promise.all`, then append the canvases to the container in the
resolved array's order. -/
def renderPDFParallel {α : Type} (numPages : Nat) (renderCanvas : Nat → α)
    (dflt : α) (settleOrder : List Nat) : List α :=
  promiseAll numPages dflt (taskLog (fun i => renderCanvas (i + 1)) settleOrder)

theorem lookup_taskLog {α : Type} (results : Nat → α) (i : Nat) :
    ∀ order : List Nat, i ∈ order →
      (taskLog results order).lookup i = some (results i) := by
  intro order
  induction order with
  | nil => intro h; exact absurd h (List.not_mem_nil i)
  | cons j rest ih =>
    intro h
    by_cases hij : i = j
    · subst hij
      simp [taskLog, List.lookup]
    · have hir : i ∈ rest := by
        rcases List.mem_cons.mp h with h | h
        · exact absurd h hij
        · exact h
      have hbeq : (i == j) = false := beq_false_of_ne hij
      simpa [taskLog, List.lookup, hbeq] using ih hir

/-- **C10.** The parallel `renderPDF` variant appends the page
canvases to the container in ascending page order `1..numPages`
regardless of the order in which the individual renders settle:
`Promise.all` resolves by task index, and DOM insertion happens only
after every render has completed. -/
theorem claim_C10_append_in_page_order {α : Type} (numPages : Nat)
    (renderCanvas : Nat → α) (dflt : α) (settleOrder : List Nat)
    (hperm : settleOrder.Perm (List.range numPages)) :
    renderPDFParallel numPages renderCanvas dflt settleOrder =
      (List.range numPages).map fun i => renderCanvas (i + 1) := by
  unfold renderPDFParallel promiseAll
  apply List.map_congr_left
  intro i hi
  rw [lookup_taskLog _ i settleOrder (hperm.mem_iff.mpr hi)]
  rfl

theorem claim_C10_append_in_page_order_witness :
    renderPDFParallel 3 (fun p => 10 * p) 0 [2, 0, 1] = [10, 20, 30] :=
  (claim_C10_append_in_page_order 3 (fun p => 10 * p) 0 [2, 0, 1]
    (by decide)).trans (by decide)
